import Mathlib

/-!
Verification of the time-weighted scoring and leaderboard-ranking engine of the
economic forecasting application (`src/App.js`).

Shallow embedding conventions:
* JavaScript numbers occurring in the scoring arithmetic are modelled as `ℚ`.
  A `NaN` arising from reading a missing object property (`undefined / 100`)
  is modelled by `Option ℚ` with `none` playing the role of `NaN`; `NaN`
  propagates through arithmetic, i.e. through `Option.bind`-style matching.
* Timestamps (`Date` values, millisecond precision) are modelled as `Int`.
  The fallbacks `current.created_at || current.updated_at` and
  `question.resolvedDate || question.resolved_date || question.close_date`
  are collapsed into the single effective fields `created_at` / `resolvedDate`:
  the claims quantify over records whose creation/resolution times exist.
* A JavaScript object used as a forecast map is modelled as an association
  list `List (String × ℚ)`; a real JS object has pairwise distinct keys, so
  statements about multiple-choice objects carry a `Nodup` key hypothesis
  where the distinctness matters.
* `question.resolution` is a boolean for binary questions and a string for
  category questions; it is modelled by the sum type `Resolution` so that the
  untyped comparisons of the source (`resolution ? 1 : 0`,
  `resolution === opt`, `predicted === question.resolution`) can be
  translated faithfully.
-/

/-- The realized outcome stored on a resolved question: a boolean for binary
questions, a category/option label for the other two types. -/
inductive Resolution where
  | rbool : Bool → Resolution
  | rstr : String → Resolution
deriving DecidableEq, Repr

/-- JavaScript truthiness of a resolution value, as used by
`resolution ? 1 : 0` in the binary branch of `calculateBrierScore`. -/
def Resolution.truthy : Resolution → Bool
  | .rbool b => b
  | .rstr s => s != ""

/-- The source comparison `resolution === k` for a string `k`: strict equality
between a resolution value and a string is `false` unless the resolution is a
string equal to `k`. -/
def resEq (r : Resolution) (k : String) : Bool :=
  match r with
  | .rbool _ => false
  | .rstr s => s == k

/-- Property read `forecast[k]` on the forecast object: `some` of the stored
value when the key is present (first occurrence), `none` (undefined) when
absent. -/
def lookupKey (f : List (String × ℚ)) (k : String) : Option ℚ :=
  (f.find? (fun kv => kv.1 == k)).map (fun kv => kv.2)

/-- Embedding of `calculateBrierScore` (App.js lines 10-39).  `none` models the `NaN`
produced when binary / three-category field reads hit a missing key
(`undefined / 100` is `NaN` and propagates).  The multiple-choice branch
iterates `Object.keys(forecast)`, i.e. the object's own entries, so it is
total; `forecast[opt] || 0` is the stored value for every own key (the `|| 0`
only maps the falsy number `0` to itself). -/
def calculateBrierScore (forecast : List (String × ℚ)) (resolution : Resolution)
    (questionType : String) : Option ℚ :=
  if questionType == "binary" then
    match lookupKey forecast "probability" with
    | none => none
    | some pr =>
        let p := pr / 100
        let outcome : ℚ := if resolution.truthy then 1 else 0
        some ((p - outcome) ^ 2 + ((1 - p) - (1 - outcome)) ^ 2)
  else if questionType == "three-category" then
    match lookupKey forecast "increase", lookupKey forecast "unchanged",
        lookupKey forecast "decrease" with
    | some i, some u, some d =>
        let probs : List ℚ := [i / 100, u / 100, d / 100]
        let outcomes : List ℚ :=
          [if resEq resolution "increase" then 1 else 0,
           if resEq resolution "unchanged" then 1 else 0,
           if resEq resolution "decrease" then 1 else 0]
        some ((probs.zip outcomes).foldl (fun sum pe => sum + (pe.1 - pe.2) ^ 2) 0)
    | _, _, _ => none
  else if questionType == "multiple-choice" then
    some (forecast.foldl
      (fun sum kv => sum + (kv.2 / 100 - (if resEq resolution kv.1 then 1 else 0)) ^ 2) 0)
  else
    some 0

/-- One row of the `forecasts` table as consumed by the scoring engine. -/
structure ForecastRec where
  user_id : String
  question_id : Nat
  created_at : Int
  forecast : List (String × ℚ)
deriving DecidableEq, Repr

/-- One question as consumed by the scoring engine.  `resolvedDate` is the
effective resolution timestamp
(`question.resolvedDate || question.resolved_date || question.close_date`). -/
structure Question where
  id : Nat
  type : String
  isResolved : Bool
  resolution : Resolution
  resolvedDate : Int
deriving DecidableEq, Repr

/-- One day in milliseconds, the divisor `1000 * 60 * 60 * 24`. -/
def msPerDay : Int := 86400000

/-- The per-window day count of `calculateTimeWeightedBrier` (App.js lines
62-63): `Math.floor((end - start) / msPerDay) + 1`, clamped below by 1.
`Int.fdiv` is floor division, matching `Math.floor` on the exact quotient. -/
def daysActive (s e : Int) : Int :=
  if (e - s).fdiv msPerDay + 1 < 1 then 1 else (e - s).fdiv msPerDay + 1

/-- The accumulation loop of `calculateTimeWeightedBrier` (App.js lines
51-73), returning the pair `(total, totalDays)`.  The window of each history
item ends at the next item's creation time, or at the resolution date for the
last item.  `total` is `none` when any window's score is `NaN`. -/
def twbLoop (resolutionDate : Int) (resolution : Resolution) (qtype : String) :
    List ForecastRec → Option ℚ × Int
  | [] => (some 0, 0)
  | f :: rest =>
      let e : Int :=
        match rest with
        | [] => resolutionDate
        | g :: _ => g.created_at
      let days := daysActive f.created_at e
      let brier := calculateBrierScore f.forecast resolution qtype
      let r := twbLoop resolutionDate resolution qtype rest
      (match brier, r.1 with
       | some b, some t => some (b * (days : ℚ) + t)
       | _, _ => none,
       days + r.2)

/-- Embedding of `calculateTimeWeightedBrier` (App.js lines 44-76). -/
def calculateTimeWeightedBrier (forecastHistory : List ForecastRec)
    (question : Question) : Option ℚ :=
  if question.isResolved = false ∨ forecastHistory.length = 0 then some 0
  else
    let r := twbLoop question.resolvedDate question.resolution question.type forecastHistory
    if 0 < r.2 then r.1.map (fun t => t / (r.2 : ℚ)) else some 0

/-- The sequence of window end instants: each history item's window ends at
the next item's creation time, the last one at the resolution date. -/
def windowEnds (history : List ForecastRec) (resolutionDate : Int) : List Int :=
  history.tail.map (fun f => f.created_at) ++ [resolutionDate]

/-- The day weights of the aggregation windows. -/
def windowWeights (history : List ForecastRec) (resolutionDate : Int) : List Int :=
  (history.zip (windowEnds history resolutionDate)).map
    (fun p => daysActive p.1.created_at p.2)

/-- The contribution of one window to the aggregation numerator: the window's
score times its day weight. -/
def windowTerm (res : Resolution) (ty : String) (p : ForecastRec × Int) : ℚ :=
  ((calculateBrierScore p.1.forecast res ty).getD 0) *
    ((daysActive p.1.created_at p.2 : Int) : ℚ)

/-- The comparator `(a, b) => new Date(a.created_at) - new Date(b.created_at)`
of `getUserStats` (App.js line 671), as a binary relation: ascending by
creation time. -/
def byCreated (a b : ForecastRec) : Prop :=
  a.created_at ≤ b.created_at

instance : DecidableRel byCreated := fun a b =>
  inferInstanceAs (Decidable (a.created_at ≤ b.created_at))

instance : IsTotal ForecastRec byCreated :=
  ⟨fun a b => Int.le_total a.created_at b.created_at⟩

instance : IsTrans ForecastRec byCreated :=
  ⟨fun _ _ _ h1 h2 => le_trans h1 h2⟩

/-- The stable ascending sort `history.sort((a, b) => new Date(a.created_at) -
new Date(b.created_at))` performed by the caller `getUserStats`; insertion
sort is stable, matching the ECMAScript requirement on `Array.prototype.sort`. -/
def sortHistory (history : List ForecastRec) : List ForecastRec :=
  List.insertionSort byCreated history

/-- The forecast history `getUserStats` builds for one question (App.js lines
669-671): the user's forecasts for the question, sorted ascending by
creation time. -/
def historyFor (userForecasts : List ForecastRec) (q : Question) : List ForecastRec :=
  sortHistory (userForecasts.filter (fun f => f.question_id == q.id))

/-- The tie step of `Object.keys(data).reduce((a, b) => data[a] > data[b] ? a : b)`
(App.js line 687), acting on the object's entries: keep the accumulator only
when its value is strictly greater. -/
def pickMax (a b : String × ℚ) : String × ℚ :=
  if b.2 < a.2 then a else b

/-- The arg-max key computation of `getUserStats` (App.js line 687): a fold of
`pickMax` over the object's entries, starting from the first entry.  `none`
models the `TypeError` that `reduce` with no initial value throws on an empty
object. -/
def argmaxKey (data : List (String × ℚ)) : Option String :=
  match data with
  | [] => none
  | p :: ps => some (ps.foldl pickMax p).1

/-- The per-question accuracy increment of `getUserStats` (App.js lines
676-690): 1 when the last forecast of the history predicts the resolution,
else 0.  The empty-history and empty-forecast cases contribute 0 (the code
skips a missing last forecast; an empty forecast object would throw in the
arg-max `reduce`, modelled as no increment since the claims concern non-empty
forecasts). -/
def accuracyContrib (question : Question) (history : List ForecastRec) : Nat :=
  match history.getLast? with
  | none => 0
  | some lastForecast =>
      if question.type == "binary" then
        let predicted : Bool :=
          match lookupKey lastForecast.forecast "probability" with
          | some p => decide (50 < p)
          | none => false
        match question.resolution with
        | .rbool actual => if predicted == actual then 1 else 0
        | .rstr _ => 0
      else if question.type == "three-category" || question.type == "multiple-choice" then
        match argmaxKey lastForecast.forecast with
        | some k => if resEq question.resolution k then 1 else 0
        | none => 0
      else 0

/-- The derived per-user statistic.  `brierScore` is `Option ℚ` because a
malformed forecast can make the time-weighted sum `NaN`; the numeric/string
distinction of the source (`0` vs `toFixed` output) is collapsed into `ℚ`. -/
structure UserStat where
  brierScore : Option ℚ
  questionsAnswered : Nat
  accuracy : ℚ
deriving DecidableEq, Repr

/-- Embedding of `Number.prototype.toFixed(3)` on the scores: rounding to 3 decimal
places (the source then renders the string; numerically this is the rounded
value, which is what the leaderboard's `parseFloat` recovers). -/
def toFixed3 (q : ℚ) : ℚ :=
  (round (q * 1000) : ℚ) / 1000

/-- Embedding of `Number.prototype.toFixed(1)` on the accuracy percentage. -/
def toFixed1 (q : ℚ) : ℚ :=
  (round (q * 10) : ℚ) / 10

/-- Embedding of `forecasts.filter(f => f.user_id === userId)` (App.js line 652). -/
def userForecastsOf (userId : String) (forecasts : List ForecastRec) : List ForecastRec :=
  forecasts.filter (fun f => f.user_id == userId)

/-- The resolved questions the user has at least one forecast on (App.js
lines 653-657). -/
def answeredQuestionsOf (userId : String) (questions : List Question)
    (forecasts : List ForecastRec) : List Question :=
  (questions.filter (fun q => q.isResolved)).filter
    (fun q => (userForecastsOf userId forecasts).any (fun f => f.question_id == q.id))

/-- Embedding of `getUserStats` (App.js lines 651-698).  `new Set(...).size` is the number
of distinct question ids among the user's forecasts, modelled by `dedup`. -/
def getUserStats (userId : String) (questions : List Question)
    (forecasts : List ForecastRec) : UserStat :=
  let userForecasts := userForecastsOf userId forecasts
  let answeredQuestions := answeredQuestionsOf userId questions forecasts
  let uniqueQuestionsAnswered := ((userForecasts.map (fun f => f.question_id)).dedup).length
  if answeredQuestions.length = 0 then
    { brierScore := some 0, questionsAnswered := uniqueQuestionsAnswered, accuracy := 0 }
  else
    let totalBrierScore : Option ℚ := answeredQuestions.foldl
      (fun acc q =>
        match acc, calculateTimeWeightedBrier (historyFor userForecasts q) q with
        | some t, some b => some (t + b)
        | _, _ => none)
      (some 0)
    let correctPredictions : Nat := answeredQuestions.foldl
      (fun acc q => acc + accuracyContrib q (historyFor userForecasts q)) 0
    { brierScore := totalBrierScore.map
        (fun t => toFixed3 (t / (answeredQuestions.length : ℚ))),
      questionsAnswered := uniqueQuestionsAnswered,
      accuracy := toFixed1 (((correctPredictions : ℚ) / (answeredQuestions.length : ℚ)) * 100) }

/-- One leaderboard row: the user (identified by id; the spread `...user`
fields are irrelevant to ranking) with their computed stats. -/
structure LeaderboardEntry where
  user : String
  stats : UserStat
deriving DecidableEq, Repr

/-- The numeric sort key `parseFloat(entry.stats.brierScore)` of the
leaderboard comparator, on well-formed (non-`NaN`) scores. -/
def lbKey (e : LeaderboardEntry) : ℚ :=
  e.stats.brierScore.getD 0

/-- The leaderboard comparator as a relation: ascending by Brier score. -/
def lbLe (a b : LeaderboardEntry) : Prop :=
  lbKey a ≤ lbKey b

instance : DecidableRel lbLe := fun a b =>
  inferInstanceAs (Decidable (lbKey a ≤ lbKey b))

instance : IsTotal LeaderboardEntry lbLe :=
  ⟨fun a b => le_total (lbKey a) (lbKey b)⟩

instance : IsTrans LeaderboardEntry lbLe :=
  ⟨fun _ _ _ h1 h2 => le_trans h1 h2⟩

/-- Embedding of `getLeaderboard` (App.js lines 700-707): compute stats for every user,
then sort ascending by Brier score (`Array.prototype.sort` with the numeric
comparator is a stable ascending sort, modelled by insertion sort). -/
def getLeaderboard (users : List String) (questions : List Question)
    (forecasts : List ForecastRec) : List LeaderboardEntry :=
  List.insertionSort lbLe
    (users.map (fun u => { user := u, stats := getUserStats u questions forecasts }))

/-- Spec-side arg-max with ties broken in favour of the FIRST-encountered
key, following the claim's words: the first entry whose value is greater than
or equal to every value of the object. -/
def firstMaxKey (data : List (String × ℚ)) : Option String :=
  (data.find? (fun kv => data.all (fun kv2 => decide (kv2.2 ≤ kv.2)))).map (fun kv => kv.1)

/-- Spec-side arg-max with ties broken in favour of the LAST-encountered key:
the last entry whose value is greater than or equal to every value of the
object. -/
def lastMaxKey (data : List (String × ℚ)) : Option String :=
  (data.reverse.find? (fun kv => data.all (fun kv2 => decide (kv2.2 ≤ kv.2)))).map (fun kv => kv.1)

/-- A resolved binary question (resolution `true` after 10 days), used as
concrete input. -/
def q5 : Question :=
  { id := 1, type := "binary", isResolved := true,
    resolution := Resolution.rbool true, resolvedDate := 864000000 }

/-- A forecast of probability 100 made at time 0. -/
def f5a : ForecastRec :=
  { user_id := "u", question_id := 1, created_at := 0,
    forecast := [("probability", 100)] }

/-- A forecast of probability 0 made 5 days later. -/
def f5b : ForecastRec :=
  { user_id := "u", question_id := 1, created_at := 432000000,
    forecast := [("probability", 0)] }

/-- An unresolved binary question, used as concrete input. -/
def q10 : Question :=
  { id := 2, type := "binary", isResolved := false,
    resolution := Resolution.rbool false, resolvedDate := 0 }

/-- A three-category forecast whose arg-max is tied between the first two
keys. -/
def tiedData : List (String × ℚ) :=
  [("increase", 50), ("unchanged", 50), ("decrease", 0)]

/-- A resolved three-category question with resolution `"increase"`. -/
def q6 : Question :=
  { id := 3, type := "three-category", isResolved := true,
    resolution := Resolution.rstr "increase", resolvedDate := 86400000 }

/-- A forecast holding the tied three-category distribution. -/
def f6 : ForecastRec :=
  { user_id := "u", question_id := 3, created_at := 0, forecast := tiedData }

/-- Claim C1: for a binary forecast with probability in `[0, 100]` and a
boolean resolution, the score function returns the deliberately doubled
two-term form `(p - outcome)² + ((1 - p) - (1 - outcome))²` with
`p = probability / 100` and `outcome = resolution ? 1 : 0`; in particular
probability 100 against `true` scores 0 and probability 0 against `true`
scores 2. -/
theorem c1_binary_score_formula :
    (∀ (pr : ℚ) (b : Bool), 0 ≤ pr → pr ≤ 100 →
      calculateBrierScore [("probability", pr)] (Resolution.rbool b) "binary" =
        some ((pr / 100 - (if b then 1 else 0)) ^ 2 +
          ((1 - pr / 100) - (1 - (if b then 1 else 0))) ^ 2)) ∧
    calculateBrierScore [("probability", 100)] (Resolution.rbool true) "binary" = some 0 ∧
    calculateBrierScore [("probability", 0)] (Resolution.rbool true) "binary" = some 2 := by
  refine ⟨fun pr b h0 h100 => ?_, ?_, ?_⟩
  · simp [calculateBrierScore, lookupKey, Resolution.truthy]
  · simp [calculateBrierScore, lookupKey, Resolution.truthy]
  · simp [calculateBrierScore, lookupKey, Resolution.truthy]
    norm_num

/-- Witness for C1 at probability 70 against resolution `true`. -/
theorem c1_binary_score_formula_witness :
    calculateBrierScore [("probability", 70)] (Resolution.rbool true) "binary" =
      some ((70 / 100 - (if true then 1 else 0)) ^ 2 +
        ((1 - 70 / 100) - (1 - (if true then (1 : ℚ) else 0))) ^ 2) :=
  c1_binary_score_formula.1 70 true (by norm_num) (by norm_num)

/-- Claim C4 fails on the code: an empty multiple-choice forecast scores 0
(the true-outcome term is never visited because only the forecast's own keys
are scored), not 1; and an empty binary or three-category forecast yields
`NaN` (missing property reads), not 1. -/
theorem c4_counterexample :
    calculateBrierScore [] (Resolution.rstr "A") "multiple-choice" = some 0 ∧
    some (0 : ℚ) ≠ some (1 : ℚ) ∧
    calculateBrierScore [] (Resolution.rbool true) "binary" = none ∧
    calculateBrierScore [] (Resolution.rstr "unchanged") "three-category" = none := by
  refine ⟨by simp [calculateBrierScore], by norm_num, ?_, ?_⟩
  · simp [calculateBrierScore, lookupKey]
  · simp [calculateBrierScore, lookupKey]

/-- Claim C4 amended: for every resolution, the score function applied to a
forecast with no keys returns exactly 0 for multiple-choice questions (only
the forecast's own keys are scored, so the true-outcome indicator term is
absent), and `NaN` (modelled `none`) for binary and three-category questions
(missing property reads give `undefined / 100 = NaN`); no exception is
thrown in any branch. -/
theorem c4_empty_forecast (r : Resolution) :
    calculateBrierScore [] r "multiple-choice" = some 0 ∧
    calculateBrierScore [] r "binary" = none ∧
    calculateBrierScore [] r "three-category" = none := by
  refine ⟨by simp [calculateBrierScore], ?_, ?_⟩
  · simp [calculateBrierScore, lookupKey]
  · simp [calculateBrierScore, lookupKey]

/-- Claim C10: the time-weighted aggregator returns exactly 0 for every
forecast history, including non-empty ones, whenever the question is not
resolved. -/
theorem c10_unresolved_zero (q : Question) (history : List ForecastRec)
    (hq : q.isResolved = false) :
    calculateTimeWeightedBrier history q = some 0 := by
  simp [calculateTimeWeightedBrier, hq]

/-- Witness for C10: a non-empty history on the unresolved question `q10`. -/
theorem c10_unresolved_zero_witness :
    calculateTimeWeightedBrier [f5a] q10 = some 0 :=
  c10_unresolved_zero q10 [f5a] rfl

/-- Claim C5 fails on the code: the aggregator does not sort its input, so
its result is not invariant under permutation.  On the concrete out-of-order
history `[f5b, f5a]` the aggregator returns 1/6, while on the sorted history
it returns 1. -/
theorem c5_counterexample :
    calculateTimeWeightedBrier [f5b, f5a] q5 ≠
      calculateTimeWeightedBrier (sortHistory [f5b, f5a]) q5 := by
  have hsort : sortHistory [f5b, f5a] = [f5a, f5b] := by decide
  have d1 : daysActive 432000000 0 = 1 := by decide
  have d2 : daysActive 0 864000000 = 11 := by decide
  have d3 : daysActive 0 432000000 = 6 := by decide
  have d4 : daysActive 432000000 864000000 = 6 := by decide
  rw [hsort]
  have h1 : calculateTimeWeightedBrier [f5b, f5a] q5 = some (1 / 6) := by
    simp [calculateTimeWeightedBrier, twbLoop, f5a, f5b, q5, d1, d2, d3, d4,
      calculateBrierScore, lookupKey, Resolution.truthy]
    norm_num
  have h2 : calculateTimeWeightedBrier [f5a, f5b] q5 = some 1 := by
    simp [calculateTimeWeightedBrier, twbLoop, f5a, f5b, q5, d1, d2, d3, d4,
      calculateBrierScore, lookupKey, Resolution.truthy]
    norm_num
  rw [h1, h2]
  norm_num

/-- Claim C5 amended: the aggregator does not sort internally and its result
depends on the order of its input; the caller `getUserStats` sorts each
question's history ascending by `created_at` (stably) before invoking the
aggregator, so the aggregator only ever receives sorted input from it. -/
theorem c5_caller_sorts_history (userForecasts : List ForecastRec) (q : Question) :
    List.Sorted byCreated (historyFor userForecasts q) :=
  List.sorted_insertionSort byCreated
    (userForecasts.filter (fun f => f.question_id == q.id))

/-- The clamped day count is the maximum of 1 and the floored day
difference plus one. -/
theorem daysActive_eq_max (s e : Int) :
    daysActive s e = max 1 ((e - s).fdiv msPerDay + 1) := by
  unfold daysActive
  rcases lt_or_le ((e - s).fdiv msPerDay + 1) 1 with hc | hc
  · rw [if_pos hc]
    omega
  · rw [if_neg (not_lt.mpr hc)]
    omega

/-- Every window weight is at least one day. -/
theorem one_le_daysActive (s e : Int) : 1 ≤ daysActive s e := by
  rw [daysActive_eq_max]
  exact le_max_left 1 _

/-- One step of the window-weight list on a history of two or more items. -/
theorem windowWeights_cons_cons (f g : ForecastRec) (r2 : List ForecastRec) (rd : Int) :
    windowWeights (f :: g :: r2) rd =
      daysActive f.created_at g.created_at :: windowWeights (g :: r2) rd := rfl

/-- The zipped window list of a singleton history. -/
theorem zipEnds_singleton (f : ForecastRec) (rd : Int) :
    [f].zip (windowEnds [f] rd) = [(f, rd)] := rfl

/-- One step of the zipped window list on a history of two or more items. -/
theorem zipEnds_cons_cons (f g : ForecastRec) (r2 : List ForecastRec) (rd : Int) :
    (f :: g :: r2).zip (windowEnds (f :: g :: r2) rd) =
      (f, g.created_at) :: ((g :: r2).zip (windowEnds (g :: r2) rd)) := rfl

/-- The day counter of the aggregation loop is the sum of the window
weights. -/
theorem twbLoop_totalDays (rd : Int) (res : Resolution) (ty : String) :
    ∀ h : List ForecastRec, (twbLoop rd res ty h).2 = (windowWeights h rd).sum := by
  intro h
  induction h with
  | nil => rfl
  | cons f rest ih =>
    cases rest with
    | nil => rfl
    | cons g r2 =>
      show daysActive f.created_at g.created_at + (twbLoop rd res ty (g :: r2)).2 = _
      rw [windowWeights_cons_cons, List.sum_cons, ih]

/-- When every window's score is defined, the score accumulator of the
aggregation loop is the sum of score times weight over the windows. -/
theorem twbLoop_total (rd : Int) (res : Resolution) (ty : String) :
    ∀ h : List ForecastRec,
      (∀ f ∈ h, (calculateBrierScore f.forecast res ty).isSome) →
      (twbLoop rd res ty h).1 =
        some (((h.zip (windowEnds h rd)).map (windowTerm res ty)).sum) := by
  intro h
  induction h with
  | nil => intro _; rfl
  | cons f rest ih =>
    intro hall
    obtain ⟨b, hb⟩ := Option.isSome_iff_exists.mp (hall f (List.mem_cons_self f rest))
    cases rest with
    | nil =>
      show (match calculateBrierScore f.forecast res ty, (twbLoop rd res ty []).1 with
            | some b, some t => some (b * ((daysActive f.created_at rd : Int) : ℚ) + t)
            | _, _ => none) = _
      rw [hb, zipEnds_singleton]
      simp [twbLoop, windowTerm, hb]
    | cons g r2 =>
      have hrest := ih (fun x hx => hall x (List.mem_cons_of_mem f hx))
      show (match calculateBrierScore f.forecast res ty, (twbLoop rd res ty (g :: r2)).1 with
            | some b, some t =>
                some (b * ((daysActive f.created_at g.created_at : Int) : ℚ) + t)
            | _, _ => none) = _
      rw [hb, hrest, zipEnds_cons_cons]
      simp [windowTerm, hb]

/-- Every member of the window-weight list is at least 1. -/
theorem windowWeights_one_le (h : List ForecastRec) (rd : Int) :
    ∀ d ∈ windowWeights h rd, 1 ≤ d := by
  intro d hd
  simp only [windowWeights, List.mem_map] at hd
  obtain ⟨p, hp, hpd⟩ := hd
  rw [← hpd]
  exact one_le_daysActive _ _

/-- A list of integers each at least 1 sums to at least its length. -/
theorem length_le_sum_int :
    ∀ l : List Int, (∀ x ∈ l, 1 ≤ x) → (l.length : Int) ≤ l.sum := by
  intro l
  induction l with
  | nil => simp
  | cons a t ih =>
    intro hall
    have ha := hall a (List.mem_cons_self a t)
    have ht := ih (fun x hx => hall x (List.mem_cons_of_mem a hx))
    simp only [List.sum_cons, List.length_cons]
    push_cast
    linarith

/-- A non-empty history has exactly one window weight per forecast. -/
theorem windowWeights_length (h : List ForecastRec) (rd : Int) (hne : h ≠ []) :
    (windowWeights h rd).length = h.length := by
  cases h with
  | nil => exact absurd rfl hne
  | cons f rest =>
    simp [windowWeights, windowEnds]

/-- The total day weight of a non-empty history is at least the history
length, hence strictly positive. -/
theorem twbLoop_totalDays_pos (rd : Int) (res : Resolution) (ty : String)
    (h : List ForecastRec) (hne : h ≠ []) :
    (h.length : Int) ≤ (twbLoop rd res ty h).2 ∧ 0 < (twbLoop rd res ty h).2 := by
  have hsum := length_le_sum_int (windowWeights h rd) (windowWeights_one_le h rd)
  rw [windowWeights_length h rd hne] at hsum
  rw [twbLoop_totalDays rd res ty h]
  have hlen : 0 < h.length := List.length_pos.mpr hne
  constructor
  · exact hsum
  · have : (0 : Int) < (h.length : Int) := by exact_mod_cast hlen
    linarith

/-- Claim C2: for a resolved question and a non-empty history sorted
ascending by creation time whose scores are all defined, the aggregator
weights item `i` by `floor((windowEnd - windowStart) / 1 day) + 1` days —
where `windowEnd` is the next item's creation time, or the resolution date
for the last item — clamping every weight below 1 (including negative
values) to exactly 1, and returns `Σ(score_i × days_i) / Σ(days_i)`. -/
theorem c2_window_weighting (q : Question) (h : List ForecastRec)
    (hres : q.isResolved = true) (hne : h ≠ [])
    (hsorted : List.Sorted byCreated h)
    (hscores : ∀ f ∈ h, (calculateBrierScore f.forecast q.resolution q.type).isSome) :
    calculateTimeWeightedBrier h q =
      some ((((h.zip (windowEnds h q.resolvedDate)).map
          (fun p => ((calculateBrierScore p.1.forecast q.resolution q.type).getD 0) *
            ((max 1 ((p.2 - p.1.created_at).fdiv msPerDay + 1) : Int) : ℚ))).sum) /
        ((((h.zip (windowEnds h q.resolvedDate)).map
            (fun p => (max 1 ((p.2 - p.1.created_at).fdiv msPerDay + 1) : Int))).sum : Int) : ℚ)) := by
  have hmax : ∀ p : ForecastRec × Int,
      (max 1 ((p.2 - p.1.created_at).fdiv msPerDay + 1) : Int) =
        daysActive p.1.created_at p.2 := fun p => (daysActive_eq_max p.1.created_at p.2).symm
  simp only [hmax]
  have hcond : ¬(q.isResolved = false ∨ h.length = 0) := by
    simp [hres, List.length_eq_zero, hne]
  rw [calculateTimeWeightedBrier, if_neg hcond]
  have hpos := (twbLoop_totalDays_pos q.resolvedDate q.resolution q.type h hne).2
  rw [if_pos hpos]
  rw [twbLoop_total q.resolvedDate q.resolution q.type h hscores]
  rw [twbLoop_totalDays q.resolvedDate q.resolution q.type h]
  rfl

/-- Witness for C2: a single forecast on the resolved question `q5`. -/
theorem c2_window_weighting_witness :
    calculateTimeWeightedBrier [f5a] q5 =
      some (((([f5a].zip (windowEnds [f5a] q5.resolvedDate)).map
          (fun p => ((calculateBrierScore p.1.forecast q5.resolution q5.type).getD 0) *
            ((max 1 ((p.2 - p.1.created_at).fdiv msPerDay + 1) : Int) : ℚ))).sum) /
        (((([f5a].zip (windowEnds [f5a] q5.resolvedDate)).map
            (fun p => (max 1 ((p.2 - p.1.created_at).fdiv msPerDay + 1) : Int))).sum : Int) : ℚ)) :=
  c2_window_weighting q5 [f5a] rfl (List.cons_ne_nil f5a [])
    (List.sorted_singleton f5a)
    (by intro f hf; rw [List.mem_singleton] at hf; subst hf; rfl)

/-- Claim C9: for a resolved question and a non-empty history, every window
weight is at least 1, the total weight is at least the history length and
strictly positive, and the aggregator's result is the division branch — the
guard returning 0 on a non-positive total weight is unreachable. -/
theorem c9_guard_unreachable (q : Question) (h : List ForecastRec)
    (hres : q.isResolved = true) (hne : h ≠ []) :
    (∀ d ∈ windowWeights h q.resolvedDate, 1 ≤ d) ∧
    (h.length : Int) ≤ (twbLoop q.resolvedDate q.resolution q.type h).2 ∧
    0 < (twbLoop q.resolvedDate q.resolution q.type h).2 ∧
    calculateTimeWeightedBrier h q =
      (twbLoop q.resolvedDate q.resolution q.type h).1.map
        (fun t => t / (((twbLoop q.resolvedDate q.resolution q.type h).2 : Int) : ℚ)) := by
  obtain ⟨hlen, hpos⟩ := twbLoop_totalDays_pos q.resolvedDate q.resolution q.type h hne
  refine ⟨windowWeights_one_le h q.resolvedDate, hlen, hpos, ?_⟩
  have hcond : ¬(q.isResolved = false ∨ h.length = 0) := by
    simp [hres, List.length_eq_zero, hne]
  rw [calculateTimeWeightedBrier, if_neg hcond]
  rw [if_pos hpos]

/-- Witness for C9: on the concrete history `[f5a]` the aggregator takes the
division branch with a positive total weight. -/
theorem c9_guard_unreachable_witness :
    0 < (twbLoop q5.resolvedDate q5.resolution q5.type [f5a]).2 ∧
    calculateTimeWeightedBrier [f5a] q5 =
      (twbLoop q5.resolvedDate q5.resolution q5.type [f5a]).1.map
        (fun t => t / (((twbLoop q5.resolvedDate q5.resolution q5.type [f5a]).2 : Int) : ℚ)) :=
  ⟨(c9_guard_unreachable q5 [f5a] rfl (List.cons_ne_nil f5a [])).2.2.1,
   (c9_guard_unreachable q5 [f5a] rfl (List.cons_ne_nil f5a [])).2.2.2⟩

/-- The fold of the arg-max step splits its input around its result: every
entry before it has a value less than or equal to the result's, every entry
after it has a value strictly below the result's (so the fold yields the
LAST entry attaining the maximum). -/
theorem pickMax_decomp :
    ∀ (ps : List (String × ℚ)) (p : String × ℚ),
      ∃ l1 l2, p :: ps = l1 ++ (ps.foldl pickMax p) :: l2 ∧
        (∀ x ∈ l1, x.2 ≤ (ps.foldl pickMax p).2) ∧
        (∀ x ∈ l2, x.2 < (ps.foldl pickMax p).2) := by
  intro ps
  induction ps with
  | nil =>
    intro p
    exact ⟨[], [], rfl, by simp, by simp⟩
  | cons q rest ih =>
    intro p
    simp only [List.foldl_cons]
    by_cases hpq : q.2 < p.2
    · have hpick : pickMax p q = p := if_pos hpq
      rw [hpick]
      obtain ⟨l1, l2, heq, h1, h2⟩ := ih p
      set r := List.foldl pickMax p rest with hrdef
      cases l1 with
      | nil =>
        simp only [List.nil_append] at heq
        injection heq with hp hrest
        refine ⟨[], q :: rest, by rw [List.nil_append, ← hp], by simp, ?_⟩
        intro x hx
        rcases List.mem_cons.mp hx with hxq | hx2
        · rw [hxq, ← hp]
          exact hpq
        · rw [hrest] at hx2
          exact h2 x hx2
      | cons a t =>
        simp only [List.cons_append] at heq
        injection heq with hp hrest
        have har : a.2 ≤ r.2 := h1 a (List.mem_cons_self a t)
        have hpr : p.2 ≤ r.2 := by rw [hp]; exact har
        refine ⟨p :: q :: t, l2, ?_, ?_, h2⟩
        · rw [List.cons_append, List.cons_append, ← hrest]
        intro x hx
        rcases List.mem_cons.mp hx with hxp | hx2
        · rw [hxp]
          exact hpr
        rcases List.mem_cons.mp hx2 with hxq | hx3
        · rw [hxq]
          exact le_trans (le_of_lt hpq) hpr
        · exact h1 x (List.mem_cons_of_mem a hx3)
    · have hpick : pickMax p q = q := if_neg hpq
      rw [hpick]
      obtain ⟨l1, l2, heq, h1, h2⟩ := ih q
      set r := List.foldl pickMax q rest with hrdef
      have hple : p.2 ≤ q.2 := not_lt.mp hpq
      cases l1 with
      | nil =>
        simp only [List.nil_append] at heq
        injection heq with hp hrest
        refine ⟨[p], l2, ?_, ?_, h2⟩
        · rw [List.singleton_append, ← hp, ← hrest]
        intro x hx
        have hxp := List.mem_singleton.mp hx
        rw [hxp, ← hp]
        exact hple
      | cons a t =>
        simp only [List.cons_append] at heq
        injection heq with hp hrest
        have har : a.2 ≤ r.2 := h1 a (List.mem_cons_self a t)
        have hqr : q.2 ≤ r.2 := by rw [hp]; exact har
        refine ⟨p :: q :: t, l2, ?_, ?_, h2⟩
        · rw [List.cons_append, List.cons_append, ← hrest]
        intro x hx
        rcases List.mem_cons.mp hx with hxp | hx2
        · rw [hxp]
          exact le_trans hple hqr
        rcases List.mem_cons.mp hx2 with hxq | hx3
        · rw [hxq]
          exact hqr
        · exact h1 x (List.mem_cons_of_mem a hx3)

/-- The reduce-based arg-max of the source equals the last-encountered key
among the entries attaining the maximal value. -/
theorem argmaxKey_eq_lastMaxKey (data : List (String × ℚ)) :
    argmaxKey data = lastMaxKey data := by
  cases data with
  | nil => rfl
  | cons p ps =>
    show some (List.foldl pickMax p ps).1 = lastMaxKey (p :: ps)
    obtain ⟨l1, l2, heq, h1, h2⟩ := pickMax_decomp ps p
    set r := List.foldl pickMax p ps with hrdef
    have hall : ∀ x ∈ p :: ps, x.2 ≤ r.2 := by
      intro x hx
      rw [heq] at hx
      rcases List.mem_append.mp hx with hx1 | hx2
      · exact h1 x hx1
      rcases List.mem_cons.mp hx2 with hxr | hx3
      · rw [hxr]
      · exact le_of_lt (h2 x hx3)
    have hallL : ∀ x ∈ l1 ++ r :: l2, x.2 ≤ r.2 := by
      rw [← heq]
      exact hall
    have hpredr : (l1 ++ r :: l2).all (fun kv2 => decide (kv2.2 ≤ r.2)) = true := by
      rw [List.all_eq_true]
      intro x hx
      exact decide_eq_true (hallL x hx)
    have hnone : (l2.reverse).find?
        (fun kv => (l1 ++ r :: l2).all fun kv2 => decide (kv2.2 ≤ kv.2)) = none := by
      rw [List.find?_eq_none]
      intro x hx hcontra
      rw [List.all_eq_true] at hcontra
      have hr2 := hcontra r (List.mem_append.mpr (Or.inr (List.mem_cons_self r l2)))
      have hler := of_decide_eq_true hr2
      have hxl2 := h2 x (List.mem_reverse.mp hx)
      exact absurd hler (not_le.mpr hxl2)
    unfold lastMaxKey
    rw [heq, List.reverse_append, List.reverse_cons, List.append_assoc,
      List.singleton_append]
    rw [List.find?_append, hnone, Option.none_or]
    have hfind : List.find?
        (fun kv => (l1 ++ r :: l2).all fun kv2 => decide (kv2.2 ≤ kv.2))
        (r :: l1.reverse) = some r := by
      apply List.find?_cons_of_pos
      exact hpredr
    rw [hfind]
    rfl

/-- Claim C6 fails on the code: with the tied forecast
`{increase: 50, unchanged: 50, decrease: 0}` on a three-category question
resolved `"increase"`, the first-encountered arg-max key equals the
resolution, yet the accuracy contribution is 0 — the source's `reduce`
keeps the accumulator only on a strict comparison, so ties go to the
LAST-encountered key (`"unchanged"` here), not the first. -/
theorem c6_counterexample :
    firstMaxKey tiedData = some "increase" ∧
    resEq q6.resolution "increase" = true ∧
    accuracyContrib q6 [f6] = 0 := by
  refine ⟨rfl, rfl, rfl⟩

/-- Claim C6 amended: for a three-category or multiple-choice question, the
accuracy count increments by 1 exactly when the arg-max key of the user's
last forecast — with ties broken in favour of the LAST-encountered key of
the forecast mapping (stable, not random) — equals the resolution. -/
theorem c6_accuracy_argmax_last (q : Question) (history : List ForecastRec)
    (lf : ForecastRec) (hlast : history.getLast? = some lf)
    (hty : q.type = "three-category" ∨ q.type = "multiple-choice") :
    accuracyContrib q history =
      (match lastMaxKey lf.forecast with
       | some k => if resEq q.resolution k then 1 else 0
       | none => 0) := by
  rw [accuracyContrib, hlast]
  rcases hty with hty | hty <;> rw [hty] <;>
    simp [argmaxKey_eq_lastMaxKey]

/-- Witness for C6 amended, on the tied concrete forecast. -/
theorem c6_accuracy_argmax_last_witness :
    accuracyContrib q6 [f6] =
      (match lastMaxKey f6.forecast with
       | some k => if resEq q6.resolution k then 1 else 0
       | none => 0) :=
  c6_accuracy_argmax_last q6 [f6] f6 rfl (Or.inl rfl)

/-- Claim C7: the user statistics depend on the question list only through
its resolved questions (so `brierScore`/`accuracy` are computed only over
resolved questions), resolved questions the user never forecast on do not
change the statistics, and `questionsAnswered` is the number of distinct
questions — resolved or not — the user has ever forecast on. -/
theorem c7_stats_scope (u : String) (qs : List Question) (fs : List ForecastRec) :
    (getUserStats u qs fs = getUserStats u (qs.filter (fun q => q.isResolved)) fs) ∧
    (getUserStats u qs fs).questionsAnswered =
      (((fs.filter (fun f => f.user_id == u)).map (fun f => f.question_id)).dedup).length ∧
    (∀ q0 : Question, (∀ f ∈ fs, f.user_id == u → ¬f.question_id = q0.id) →
      getUserStats u (q0 :: qs) fs = getUserStats u qs fs) := by
  have hstats : ∀ qs1 qs2 : List Question,
      answeredQuestionsOf u qs1 fs = answeredQuestionsOf u qs2 fs →
      getUserStats u qs1 fs = getUserStats u qs2 fs := by
    intro qs1 qs2 hA
    unfold getUserStats
    rw [hA]
  refine ⟨?_, ?_, ?_⟩
  · apply hstats
    unfold answeredQuestionsOf
    rw [List.filter_filter]
    simp
  · simp only [getUserStats, userForecastsOf]
    split
    · rfl
    · rfl
  · intro q0 h0
    apply hstats
    have hany : (userForecastsOf u fs).any (fun f => f.question_id == q0.id) = false := by
      rw [userForecastsOf, List.any_eq_false]
      intro f hf
      obtain ⟨hfin, hfu⟩ := List.mem_filter.mp hf
      simp only [beq_iff_eq]
      exact h0 f hfin hfu
    unfold answeredQuestionsOf
    cases hres0 : q0.isResolved with
    | false => simp [List.filter_cons, hres0]
    | true => simp [List.filter_cons, hres0, hany]

/-- Witness for C7: prepending a question the user never forecast on leaves
the statistics unchanged. -/
theorem c7_stats_scope_witness :
    getUserStats "u" (q10 :: [q5]) [f5a] = getUserStats "u" [q5] [f5a] :=
  (c7_stats_scope "u" [q5] [f5a]).2.2 q10 (by decide)

/-- Claim C3: a user whose resolved-answered question set is empty gets
`brierScore = 0`; the leaderboard is sorted ascending by that score, so a
strictly smaller score ranks strictly earlier — in particular the zero
sentinel sorts ahead of every positive score. -/
theorem c3_leaderboard_order (users : List String) (qs : List Question)
    (fs : List ForecastRec) :
    (∀ u : String, answeredQuestionsOf u qs fs = [] →
      (getUserStats u qs fs).brierScore = some 0) ∧
    List.Sorted lbLe (getLeaderboard users qs fs) ∧
    (∀ (i j : Nat) (hi : i < (getLeaderboard users qs fs).length)
        (hj : j < (getLeaderboard users qs fs).length) (x y : ℚ),
      ((getLeaderboard users qs fs).get ⟨i, hi⟩).stats.brierScore = some x →
      ((getLeaderboard users qs fs).get ⟨j, hj⟩).stats.brierScore = some y →
      x < y → i < j) := by
  have hsorted : List.Sorted lbLe (getLeaderboard users qs fs) :=
    List.sorted_insertionSort lbLe _
  refine ⟨?_, hsorted, ?_⟩
  · intro u hz
    unfold getUserStats
    rw [hz]
    simp
  · intro i j hi hj x y hx hy hxy
    rcases Nat.lt_trichotomy i j with hlt | heq | hgt
    · exact hlt
    · exfalso
      subst heq
      have hfin : (⟨i, hi⟩ : Fin (getLeaderboard users qs fs).length) = ⟨i, hj⟩ := rfl
      rw [hfin, hy] at hx
      injection hx with hxy2
      rw [hxy2] at hxy
      exact lt_irrefl x hxy
    · exfalso
      have hab : (⟨j, hj⟩ : Fin (getLeaderboard users qs fs).length) < ⟨i, hi⟩ :=
        Fin.mk_lt_mk.mpr hgt
      have hrel := hsorted.rel_get_of_lt hab
      simp only [lbLe, lbKey] at hrel
      rw [hx, hy] at hrel
      simp at hrel
      exact absurd hxy (not_lt.mpr hrel)

/-- Witness for C3: a user with no forecasts gets the zero sentinel score. -/
theorem c3_leaderboard_order_witness :
    (getUserStats "a" [q5] [f5b]).brierScore = some 0 :=
  (c3_leaderboard_order ["a", "u"] [q5] [f5b]).1 "a" (by decide)

/-- Folding addition of a per-entry term equals the initial value plus the
sum of the mapped terms. -/
theorem foldl_add_map (g : (String × ℚ) → ℚ) :
    ∀ (l : List (String × ℚ)) (init : ℚ),
      l.foldl (fun s kv => s + g kv) init = init + (l.map g).sum := by
  intro l
  induction l with
  | nil =>
    intro init
    simp
  | cons kv t ih =>
    intro init
    simp only [List.foldl_cons, List.map_cons, List.sum_cons, ih]
    ring

/-- Under distinct keys, at most one entry's key matches the resolution. -/
theorem countP_resEq_le_one (r : Resolution) :
    ∀ kvs : List (String × ℚ), (kvs.map (fun kv => kv.1)).Nodup →
      kvs.countP (fun kv => resEq r kv.1) ≤ 1 := by
  intro kvs
  induction kvs with
  | nil =>
    intro _
    simp
  | cons kv t ih =>
    intro hnd
    rw [List.map_cons, List.nodup_cons] at hnd
    obtain ⟨hnotin, hndt⟩ := hnd
    by_cases hm : resEq r kv.1 = true
    · have hcnt0 : t.countP (fun kv2 => resEq r kv2.1) = 0 := by
        rw [List.countP_eq_zero]
        intro kv2 hkv2 hc
        cases r with
        | rbool rb => simp [resEq] at hm
        | rstr s =>
          simp only [resEq, beq_iff_eq] at hm hc
          apply hnotin
          rw [← hm, hc]
          exact List.mem_map_of_mem _ hkv2
      rw [List.countP_cons]
      simp [hm, hcnt0]
    · rw [List.countP_cons]
      simp only [hm, if_false]
      simpa using ih hndt

/-- Dividing each value by 100 divides the sum by 100. -/
theorem sum_map_div100 :
    ∀ kvs : List (String × ℚ),
      (kvs.map (fun kv => kv.2 / 100)).sum = (kvs.map (fun kv => kv.2)).sum / 100 := by
  intro kvs
  induction kvs with
  | nil => simp
  | cons kv t ih =>
    simp only [List.map_cons, List.sum_cons, ih]
    ring

/-- The multiple-choice per-term sum is nonnegative. -/
theorem mc_term_sum_nonneg (r : Resolution) (kvs : List (String × ℚ)) :
    0 ≤ (kvs.map
      (fun kv => (kv.2 / 100 - (if resEq r kv.1 then (1 : ℚ) else 0)) ^ 2)).sum := by
  apply List.sum_nonneg
  intro x hx
  simp only [List.mem_map] at hx
  obtain ⟨y, hy, hxy⟩ := hx
  rw [← hxy]
  positivity

/-- The multiple-choice per-term sum is bounded by the squared probability
sum plus the number of matching keys. -/
theorem mc_term_sum_bound (r : Resolution) :
    ∀ kvs : List (String × ℚ), (∀ kv ∈ kvs, 0 ≤ kv.2) →
      ((kvs.map
        (fun kv => (kv.2 / 100 - (if resEq r kv.1 then (1 : ℚ) else 0)) ^ 2)).sum ≤
        ((kvs.map (fun kv => kv.2 / 100)).sum) ^ 2 +
          (kvs.countP (fun kv => resEq r kv.1) : ℚ)) := by
  intro kvs
  induction kvs with
  | nil => simp
  | cons kv t ih =>
    intro hall
    have hkv : 0 ≤ kv.2 := hall kv (List.mem_cons_self kv t)
    have ht := ih (fun x hx => hall x (List.mem_cons_of_mem kv hx))
    have hx100 : 0 ≤ kv.2 / 100 := by positivity
    have hS : 0 ≤ (t.map (fun kv => kv.2 / 100)).sum := by
      apply List.sum_nonneg
      intro x hx
      simp only [List.mem_map] at hx
      obtain ⟨y, hy, hxy⟩ := hx
      rw [← hxy]
      have hy2 := hall y (List.mem_cons_of_mem kv hy)
      positivity
    have hcq : (0 : ℚ) ≤ (t.countP (fun kv2 => resEq r kv2.1) : ℚ) := by positivity
    simp only [List.map_cons, List.sum_cons, List.countP_cons]
    by_cases hm : resEq r kv.1 = true
    · simp only [hm, if_true]
      push_cast
      nlinarith [mul_nonneg hx100 hS]
    · simp only [hm, if_false]
      push_cast
      nlinarith [mul_nonneg hx100 hS]

/-- The three-category score expression, explicitly. -/
theorem threeCat_score_eq (a b c : ℚ) (r : Resolution) :
    calculateBrierScore [("increase", a), ("unchanged", b), ("decrease", c)] r
        "three-category" =
      some ((a / 100 - (if resEq r "increase" then 1 else 0)) ^ 2 +
        (b / 100 - (if resEq r "unchanged" then 1 else 0)) ^ 2 +
        (c / 100 - (if resEq r "decrease" then 1 else 0)) ^ 2) := by
  simp [calculateBrierScore, lookupKey]

/-- Bound for a three-term sum of squares against a sub-one-hot outcome
vector, with probabilities summing to one. -/
theorem three_sq_bound (A B C o1 o2 o3 : ℚ) (ha : 0 ≤ A) (hb : 0 ≤ B) (hc : 0 ≤ C)
    (hsum : A + B + C = 1) (h1 : o1 = 0 ∨ o1 = 1) (h2 : o2 = 0 ∨ o2 = 1)
    (h3 : o3 = 0 ∨ o3 = 1) (hos : o1 + o2 + o3 ≤ 1) :
    (A - o1) ^ 2 + (B - o2) ^ 2 + (C - o3) ^ 2 ≤ 2 := by
  have hsq : A ^ 2 + B ^ 2 + C ^ 2 ≤ 1 := by
    nlinarith [mul_nonneg ha hb, mul_nonneg hb hc, mul_nonneg ha hc]
  rcases h1 with h1 | h1 <;> rcases h2 with h2 | h2 <;> rcases h3 with h3 | h3 <;>
      subst h1 <;> subst h2 <;> subst h3 <;>
    nlinarith [hsq, ha, hb, hc]

/-- The outcome indicators of the three-category branch are zero-one valued
and sum to at most one. -/
theorem threeCat_outcomes (r : Resolution) :
    ((if resEq r "increase" then (1 : ℚ) else 0) = 0 ∨
      (if resEq r "increase" then (1 : ℚ) else 0) = 1) ∧
    ((if resEq r "unchanged" then (1 : ℚ) else 0) = 0 ∨
      (if resEq r "unchanged" then (1 : ℚ) else 0) = 1) ∧
    ((if resEq r "decrease" then (1 : ℚ) else 0) = 0 ∨
      (if resEq r "decrease" then (1 : ℚ) else 0) = 1) ∧
    (if resEq r "increase" then (1 : ℚ) else 0) +
      (if resEq r "unchanged" then (1 : ℚ) else 0) +
      (if resEq r "decrease" then (1 : ℚ) else 0) ≤ 1 := by
  rcases r with rb | s
  · simp [resEq]
  · simp only [resEq]
    by_cases h1 : s = "increase"
    · subst h1
      have e1 : ¬("increase" = "unchanged") := by decide
      have e2 : ¬("increase" = "decrease") := by decide
      norm_num [e1, e2]
    · by_cases h2 : s = "unchanged"
      · subst h2
        have e1 : ¬("unchanged" = "increase") := by decide
        have e2 : ¬("unchanged" = "decrease") := by decide
        norm_num [e1, e2]
      · by_cases h3 : s = "decrease"
        · subst h3
          have e1 : ¬("decrease" = "increase") := by decide
          have e2 : ¬("decrease" = "unchanged") := by decide
          norm_num [e1, e2]
        · simp [h1, h2, h3]

/-- Claim C8: for every normalized forecast (probabilities in `[0, 100]`,
summing to 100 for the category types, distinct keys for multiple-choice)
and every resolution, the score is defined and lies in `[0, 2]`. -/
theorem c8_score_bounds :
    (∀ (pr : ℚ) (r : Resolution), 0 ≤ pr → pr ≤ 100 →
      (calculateBrierScore [("probability", pr)] r "binary").isSome = true ∧
      0 ≤ (calculateBrierScore [("probability", pr)] r "binary").getD 0 ∧
      (calculateBrierScore [("probability", pr)] r "binary").getD 0 ≤ 2) ∧
    (∀ (a b c : ℚ) (r : Resolution), 0 ≤ a → 0 ≤ b → 0 ≤ c → a + b + c = 100 →
      (calculateBrierScore [("increase", a), ("unchanged", b), ("decrease", c)] r
        "three-category").isSome = true ∧
      0 ≤ (calculateBrierScore [("increase", a), ("unchanged", b), ("decrease", c)] r
        "three-category").getD 0 ∧
      (calculateBrierScore [("increase", a), ("unchanged", b), ("decrease", c)] r
        "three-category").getD 0 ≤ 2) ∧
    (∀ (kvs : List (String × ℚ)) (r : Resolution),
      (kvs.map (fun kv => kv.1)).Nodup → (∀ kv ∈ kvs, 0 ≤ kv.2) →
      (kvs.map (fun kv => kv.2)).sum = 100 →
      (calculateBrierScore kvs r "multiple-choice").isSome = true ∧
      0 ≤ (calculateBrierScore kvs r "multiple-choice").getD 0 ∧
      (calculateBrierScore kvs r "multiple-choice").getD 0 ≤ 2) := by
  refine ⟨?_, ?_, ?_⟩
  · intro pr r h0 h100
    have heq : calculateBrierScore [("probability", pr)] r "binary" =
        some ((pr / 100 - (if r.truthy then (1 : ℚ) else 0)) ^ 2 +
          ((1 - pr / 100) - (1 - (if r.truthy then (1 : ℚ) else 0))) ^ 2) := by
      simp [calculateBrierScore, lookupKey]
    rw [heq]
    simp only [Option.isSome_some, Option.getD_some]
    have hp0 : 0 ≤ pr / 100 := by positivity
    have hp1 : pr / 100 ≤ 1 := by linarith
    refine ⟨by simp, by positivity, ?_⟩
    cases hr : r.truthy
    · simp only [hr, Bool.false_eq_true, if_false]
      nlinarith
    · simp only [hr, if_true]
      nlinarith
  · intro a b c r ha hb hc hsum
    rw [threeCat_score_eq]
    simp only [Option.isSome_some, Option.getD_some]
    obtain ⟨h1, h2, h3, hos⟩ := threeCat_outcomes r
    refine ⟨by simp, by positivity, ?_⟩
    have hsum1 : a / 100 + b / 100 + c / 100 = 1 := by linarith
    have hbound := three_sq_bound (a / 100) (b / 100) (c / 100) _ _ _
      (by positivity) (by positivity) (by positivity) hsum1 h1 h2 h3 hos
    linarith [hbound]
  · intro kvs r hnd hpos hsum
    have heq : calculateBrierScore kvs r "multiple-choice" =
        some ((kvs.map
          (fun kv => (kv.2 / 100 - (if resEq r kv.1 then (1 : ℚ) else 0)) ^ 2)).sum) := by
      have hfold : calculateBrierScore kvs r "multiple-choice" =
          some (kvs.foldl
            (fun sum kv => sum + (kv.2 / 100 - (if resEq r kv.1 then (1 : ℚ) else 0)) ^ 2)
            0) := by
        simp [calculateBrierScore]
      rw [hfold, foldl_add_map, zero_add]
    rw [heq]
    simp only [Option.isSome_some, Option.getD_some]
    refine ⟨by simp, mc_term_sum_nonneg r kvs, ?_⟩
    have hle := mc_term_sum_bound r kvs hpos
    have hcnt := countP_resEq_le_one r kvs hnd
    have hsum100 : (kvs.map (fun kv => kv.2 / 100)).sum = 1 := by
      rw [sum_map_div100, hsum]
      norm_num
    rw [hsum100] at hle
    have hcntq : (kvs.countP (fun kv => resEq r kv.1) : ℚ) ≤ 1 := by
      exact_mod_cast hcnt
    nlinarith [hle, hcntq]

/-- Witness for C8 on a binary forecast of probability 50. -/
theorem c8_score_bounds_witness :
    (calculateBrierScore [("probability", 50)] (Resolution.rbool true) "binary").isSome
      = true ∧
    0 ≤ (calculateBrierScore [("probability", 50)] (Resolution.rbool true) "binary").getD 0 ∧
    (calculateBrierScore [("probability", 50)] (Resolution.rbool true) "binary").getD 0 ≤ 2 :=
  c8_score_bounds.1 50 (Resolution.rbool true) (by norm_num) (by norm_num)
